import Mathlib

/-!
Shallow embedding of `src/sdk/typescript/src/builder/Transaction.ts` — the
programmable-transaction builder: append-only builder state, result
references, the multi-stage argument-resolution pipeline, and the two
serialization targets (binary assembly and textual snapshot).

Helper modules of the repository that are not under `src/`
(`./Commands`, `./Inputs`, `./serializer`, `../types`, `./bcs`) are
modelled from the spec where a claim depends on them; each such
definition's doc comment says so explicitly.
-/

set_option autoImplicit false

deriving instance DecidableEq for Except

namespace SuiBuilder

/-- `CommandArgument` (Commands.ts, re-exported and consumed by
Transaction.ts): tagged variant `{Input(index), GasCoin, Result(index),
NestedResult(index, resultIndex)}`. -/
inductive CommandArgument where
  | gasCoin
  | input (index : Nat)
  | result (index : Nat)
  | nestedResult (index : Nat) (resultIndex : Nat)
deriving DecidableEq, Repr

/-- `SuiObjectRef` (../types): `{objectId, version, digest}`. -/
structure SuiObjectRef where
  objectId : String
  version : Nat
  digest : String
deriving DecidableEq, Repr

/-- Raw (unresolved) JavaScript values that can sit in an input before
resolution: strings, numbers, booleans, `null`. -/
inductive RawValue where
  | str (s : String)
  | num (n : Int)
  | boolVal (b : Bool)
  | nullVal
deriving DecidableEq, Repr

/-- `BuilderCallArg` (Inputs.ts, modelled from the spec §3): a resolved,
tagged call-arg — type-tagged pure bytes (`Inputs.Pure(type, value)`, the
bcs byte payload represented by the type tag plus the raw value it
encodes), an owned-object ref (`Inputs.ObjectRef`), or a shared-object
ref (`Inputs.SharedObjectRef {objectId, initialSharedVersion, mutable}`). -/
inductive CallArg where
  | pureArg (type : String) (value : RawValue)
  | objectRef (ref : SuiObjectRef)
  | sharedObjectRef (objectId : String) (initialSharedVersion : Nat) (mutableFlag : Bool)
deriving DecidableEq, Repr

/-- The value slot of a `TransactionInput`: either still a raw JavaScript
value or a resolved `BuilderCallArg`. -/
inductive InputValue where
  | raw (v : RawValue)
  | callArg (c : CallArg)
deriving DecidableEq, Repr

/-- `is(v, BuilderCallArg)` on an input's value slot. -/
def InputValue.isCallArg : InputValue → Bool
  | .callArg _ => true
  | .raw _ => false

/-- JavaScript truthiness of a raw value: `''`, `0`, `false`, `null` are
falsy. -/
def RawValue.jsTruthy : RawValue → Bool
  | .str s => !s.isEmpty
  | .num n => n != 0
  | .boolVal b => b
  | .nullVal => false

/-- JavaScript truthiness of an input's value slot (`!!input.value`):
`undefined` (`none`) is falsy, a resolved call-arg is an object and hence
truthy, a raw value follows JavaScript truthiness. -/
def valueProvided : Option InputValue → Bool
  | none => false
  | some (.raw v) => v.jsTruthy
  | some (.callArg _) => true

/-- `TransactionInput` (Commands.ts): `{kind: 'Input', index, value?}`;
the constant `kind` tag is left implicit. -/
structure TransactionInput where
  index : Nat
  value : Option InputValue
deriving DecidableEq, Repr

/-- Whether an input already holds a resolved call-arg
(`is(input.value, BuilderCallArg)`). -/
def TransactionInput.isResolved (i : TransactionInput) : Bool :=
  match i.value with
  | some (.callArg _) => true
  | _ => false

/-- Transaction commands (Commands.ts, modelled from the spec §3/§4.3:
the closed tagged variant and, for the non-Move commands, the statically
known well-known argument-kind schema of each field). -/
inductive Command where
  | moveCall (target : String) (arguments : List CommandArgument)
  | transferObjects (objects : List CommandArgument) (address : CommandArgument)
  | splitCoins (coin : CommandArgument) (amounts : List CommandArgument)
  | mergeCoins (destination : CommandArgument) (sources : List CommandArgument)
  | makeMoveVec (objects : List CommandArgument)
  | publish (modules : List (List Nat))
deriving DecidableEq, Repr

/-- `GasConfig` (Transaction.ts): `{budget?, price?, payment?, owner?}`;
budget and price are string-encoded big integers. -/
structure GasConfig where
  budget : Option String := none
  price : Option String := none
  payment : Option (List SuiObjectRef) := none
  owner : Option String := none
deriving DecidableEq, Repr

/-- `TransactionExpiration = optional(nullable(object({Epoch: integer()})))`:
`none` = `undefined`, `some none` = `null`, `some (some e)` = `{Epoch: e}`. -/
def TransactionExpirationModel : Type := Option (Option Int)

/-- The private state of a `Transaction` builder: sender, expiration, gas
config, the append-only input list and the append-only command list. -/
structure Transaction where
  sender : Option String := none
  expiration : Option (Option Int) := none
  gasConfig : GasConfig := {}
  inputs : List TransactionInput := []
  commands : List Command := []
deriving DecidableEq, Repr

/-- Builder-internal errors; each constructor corresponds to one distinct
throw site of Transaction.ts (the source messages are quoted in the
comments), except the two marked as modelled from the spec. -/
inductive BuildError where
  /-- 'Missing gas budget' -/
  | missingGasBudget
  /-- 'Missing gas payment' -/
  | missingGasPayment
  /-- 'Missing transaction sender' -/
  | missingSender
  /-- 'Missing input ...' (well-known scan, index out of range) -/
  | missingInput (index : Nat)
  /-- 'Unexpected input format.' -/
  | unexpectedInputFormat
  /-- Modelled from the spec §4.3: pure-encoding a missing raw value is a
  fatal encoding error (the bcs serializer invoked by `Inputs.Pure` is not
  under `src/`). -/
  | pureEncodingFailure
  /-- 'Incorrect number of arguments.' -/
  | incorrectNumberOfArguments
  /-- 'Expect the argument to be an object id string, got ...' -/
  | expectObjectIdString
  /-- 'Unknown call arg type ... for value ...' -/
  | unknownCallArgType
  /-- Modelled from the spec §4.5: an identifier that fails to resolve in
  the batched object fetch aborts the build with a fatal lookup error
  (the response-unpacking helpers `getObjectReference` /
  `getSharedObjectInitialVersion` from `../types` are not under `src/`). -/
  | objectLookupFailure (id : String)
  /-- `assert(input.value, BuilderCallArg)` failure during final input
  resolution (a dangling unresolved input). -/
  | unresolvedInput
  /-- JavaScript `TypeError`: reading a property of `undefined` (an
  argument index outside the input list). -/
  | typeErrorUndefined
  /-- 'All input values must be provided before serializing.' -/
  | serializeUnprovidedInput
  /-- `assert(parsed, SerializedTransactionBuilder)` failure on an
  unrecognized `version` tag. -/
  | snapshotVersionMismatch
deriving DecidableEq, Repr

/-! ## Snapshot codec (`Transaction.serialize` / `Transaction.from`)

The snapshot is JSON text produced by `JSON.stringify` over a
`SerializedTransactionBuilder` record validated with superstruct. The
JSON encoding itself (a bijection between these records and their JSON
text, with `undefined`-valued optional keys dropped and restored as
absent) lives outside `src/`; the snapshot is therefore modelled as the
record. -/

/-- `SerializedTransactionBuilder` (Transaction.ts):
`{version: literal(1), sender?, expiration?, inputs, commands, gasConfig}`. -/
structure SerializedTransactionBuilder where
  version : Nat
  sender : Option String
  expiration : Option (Option Int)
  inputs : List TransactionInput
  commands : List Command
  gasConfig : GasConfig
deriving DecidableEq, Repr

/-- `Transaction#serialize`: requires every input value to be provided
(JavaScript-truthy), then builds the snapshot record. The record literal
in the source sets only `version`, `inputs`, `commands` and `gasConfig`;
the optional `sender` and `expiration` keys are not written, so they are
absent (`none`) in the snapshot. -/
def Transaction.serialize (s : Transaction) :
    Except BuildError SerializedTransactionBuilder :=
  let allInputsProvided := s.inputs.all fun i => valueProvided i.value
  if allInputsProvided then
    .ok { version := 1
          sender := none
          expiration := none
          inputs := s.inputs
          commands := s.commands
          gasConfig := s.gasConfig }
  else
    .error .serializeUnprovidedInput

/-- `Transaction.from` on a snapshot string: `assert` validates the parsed
record against `SerializedTransactionBuilder` (in particular
`version: literal(1)`), then copies sender, expiration, gasConfig, inputs
and commands into a fresh builder. -/
def Transaction.fromSerialized (d : SerializedTransactionBuilder) :
    Except BuildError Transaction :=
  if d.version = 1 then
    .ok { sender := d.sender
          expiration := d.expiration
          gasConfig := d.gasConfig
          inputs := d.inputs
          commands := d.commands }
  else
    .error .snapshotVersionMismatch

/-- Whether a serialize attempt succeeded. -/
def serializeSucceeds (s : Transaction) : Bool :=
  match s.serialize with
  | .ok _ => true
  | .error _ => false

/-! ## Result references (`createTransactionResult`)

`createTransactionResult(index)` wraps the base argument
`{kind: 'Result', index}` in a proxy whose numeric accesses are served by
`nestedResultFor`, a memoizing accessor over the sparse cache
`nestedResults` (`nestedResults[resultIndex] ??= {kind: 'NestedResult',
index, resultIndex}`). The proxy is modelled as the base argument plus
the cache, and a numeric access as `nestedResultFor` on the cache; the
JavaScript sparse array is a list of `Option` slots. -/

/-- The `baseResult` of `createTransactionResult(index)`:
`{kind: 'Result', index}`. -/
def baseResult (index : Nat) : CommandArgument := .result index

/-- Write `v` into sparse-array slot `k`, padding missing slots with
`none` as JavaScript does when assigning past the end. -/
def setSparse (cache : List (Option CommandArgument)) (k : Nat)
    (v : CommandArgument) : List (Option CommandArgument) :=
  match cache, k with
  | [], 0 => [some v]
  | [], Nat.succ k' => none :: setSparse [] k' v
  | _ :: rest, 0 => some v :: rest
  | c :: rest, Nat.succ k' => c :: setSparse rest k' v

/-- `nestedResultFor(resultIndex)`: return the cached slot if it is
already populated, otherwise create `{kind: 'NestedResult', index,
resultIndex}`, store it in the cache, and return it. Returns the value
together with the updated cache. -/
def nestedResultFor (index : Nat) (cache : List (Option CommandArgument))
    (k : Nat) : CommandArgument × List (Option CommandArgument) :=
  match cache.getD k none with
  | some v => (v, cache)
  | none => (.nestedResult index k, setSparse cache k (.nestedResult index k))

/-- Run a sequence of position requests against the cache of a result
reference for command `index`, starting from the empty cache, and return
the final cache. -/
def runRequests (index : Nat) (ks : List Nat) : List (Option CommandArgument) :=
  ks.foldl (fun cache k => (nestedResultFor index cache k).2) []

/-! ## Synchronous builder mutations -/

/-- `Transaction#input(value)`: appends `{kind: 'Input', value, index}` at
`index = this.#inputs.length` and returns that input handle. -/
def Transaction.input (s : Transaction) (value : Option InputValue) :
    Transaction × TransactionInput :=
  let index := s.inputs.length
  let inp : TransactionInput := { index, value }
  ({ s with inputs := s.inputs ++ [inp] }, inp)

/-- `Transaction#add(command)`: pushes the command (`push` returns the new
length) and returns `createTransactionResult(index - 1)`; the second
component is the command index the returned result reference is bound
to. -/
def Transaction.add (s : Transaction) (c : Command) : Transaction × Nat :=
  let newLength := (s.commands ++ [c]).length
  ({ s with commands := s.commands ++ [c] }, newLength - 1)

/-- `setSender`. -/
def Transaction.setSender (s : Transaction) (sender : String) : Transaction :=
  { s with sender := some sender }

/-- `setExpiration`. -/
def Transaction.setExpiration (s : Transaction) (e : Option (Option Int)) :
    Transaction :=
  { s with expiration := e }

/-- `setGasPrice` (`String(price)`). -/
def Transaction.setGasPrice (s : Transaction) (price : Nat) : Transaction :=
  { s with gasConfig := { s.gasConfig with price := some (toString price) } }

/-- `setGasBudget` (`String(budget)`). -/
def Transaction.setGasBudget (s : Transaction) (budget : Nat) : Transaction :=
  { s with gasConfig := { s.gasConfig with budget := some (toString budget) } }

/-- `setGasPayment`. -/
def Transaction.setGasPayment (s : Transaction) (payment : List SuiObjectRef) :
    Transaction :=
  { s with gasConfig := { s.gasConfig with payment := some payment } }

/-- One synchronous builder mutation. -/
inductive BuilderOp where
  | addInput (value : Option InputValue)
  | addCommand (c : Command)
  | setSender (sender : String)
  | setExpiration (e : Option (Option Int))
  | setGasPrice (price : Nat)
  | setGasBudget (budget : Nat)
  | setGasPayment (payment : List SuiObjectRef)

/-- Apply one builder mutation to the state. -/
def applyOp (s : Transaction) : BuilderOp → Transaction
  | .addInput v => (s.input v).1
  | .addCommand c => (s.add c).1
  | .setSender x => s.setSender x
  | .setExpiration e => s.setExpiration e
  | .setGasPrice p => s.setGasPrice p
  | .setGasBudget b => s.setGasBudget b
  | .setGasPayment p => s.setGasPayment p

/-- Apply a sequence of builder mutations in order. -/
def applyOps (s : Transaction) (ops : List BuilderOp) : Transaction :=
  ops.foldl applyOp s

/-! ## Normalized Move types and the external provider

The normalized-type helpers (`isTxContext`, `getPureSerializationType`,
`extractStructTag` from `./serializer` and `../types`) are not under
`src/`; parameter types are modelled from the spec §4.4 as the shapes the
resolution distinguishes: pure-encodable scalar/vector types, struct
(object) types, generic type parameters, the implicit execution-context
reference, and anything else. -/

/-- A normalized Move parameter type, by the shape Move-call resolution
distinguishes (modelled from the spec §4.4). `pureTy t` carries the pure
serialization type tag the serializer would pick. -/
inductive ParamTy where
  | pureTy (serType : String)
  | structTy (tag : String)
  | typeParameterTy (n : Nat)
  | txContextRef
  | otherTy
deriving DecidableEq, Repr

/-- `isTxContext(param)` (./serializer, modelled from the spec §4.4): the
parameter is a mutable reference to the implicit `TxContext` struct. -/
def isTxContext : ParamTy → Bool
  | .txContextRef => true
  | _ => false

/-- `extractStructTag(param)` (../types, modelled from the spec §4.4):
the struct tag when the (possibly reference-wrapped) parameter is a
struct type. -/
def extractStructTag : ParamTy → Option String
  | .structTy tag => some tag
  | .txContextRef => some "0x2::tx_context::TxContext"
  | _ => none

/-- `'TypeParameter' in param`. -/
def isTypeParameter : ParamTy → Bool
  | .typeParameterTy _ => true
  | _ => false

/-- `getPureSerializationType(param, value)` (./serializer, modelled from
the spec §4.4 item 1): a pure serialization type tag exactly when the
parameter is a pure scalar/vector type and the value is a raw (not yet
encoded, present) value it is compatible with. -/
def getPureSerializationType : ParamTy → Option InputValue → Option String
  | .pureTy t, some (.raw _) => some t
  | _, _ => none

/-- `getNormalizedMoveFunction` response: the ordered parameter-type
list. -/
structure NormalizedFunction where
  parameters : List ParamTy
deriving DecidableEq, Repr

/-- Object metadata returned by the batched object fetch, as resolution
consumes it (modelled from the spec §4.5): id, version, digest and,
for shared objects, the initial shared version. -/
structure ObjectMeta where
  objectId : String
  version : Nat
  digest : String
  sharedInitialVersion : Option Nat
deriving DecidableEq, Repr

/-- One external service call issued by the build pipeline. -/
inductive Request where
  | referenceGasPrice
  | normalizedMoveFunction (packageId moduleName functionName : String)
  | objectBatch (ids : List String)
deriving DecidableEq, Repr

/-- The injected provider (spec §6), as deterministic oracles: the
reference gas price, the normalized-function lookup, and the per-id
object metadata behind `getObjectBatch` (`none` = the identifier fails
to resolve). -/
structure Env where
  referenceGasPrice : Nat
  normalizedMoveFunction : String → String → String → NormalizedFunction
  objectMeta : String → Option ObjectMeta

/-- `normalizeSuiObjectId` (../types, not under `src/`): a renaming of
package-id strings; no claim depends on its effect, so it is the
identity here. -/
def normalizeSuiObjectId (s : String) : String := s

/-- `moveCall.target.split('::')` destructured into
`[packageId, moduleName, functionName]`; missing components are empty. -/
def splitTarget (t : String) : String × String × String :=
  match t.splitOn "::" with
  | p :: m :: f :: _ => (p, m, f)
  | [p, m] => (p, m, "")
  | [p] => (p, "", "")
  | [] => ("", "", "")

/-! ## Stage 3: well-known scan -/

/-- A `wellKnownEncoding` tag from a command schema (./utils, modelled
from the spec §4.3): `{kind: 'pure', type}` or `{kind: 'object'}`. -/
inductive WellKnownEncoding where
  | pureEnc (type : String)
  | objectEnc
deriving DecidableEq, Repr

/-- A command field value as the scan sees it: a single argument or an
array of arguments. -/
inductive FieldArgs where
  | single (arg : CommandArgument)
  | arrayArgs (args : List CommandArgument)
deriving DecidableEq, Repr

/-- The argument-bearing fields of a command with their well-known
encodings (Commands.ts schemas, modelled from the spec §4.3): object-ref
kinds for coin/object fields, pure kinds for addresses and amounts;
`publish` has no argument fields. `moveCall` is special-cased by the
scan and never consults this table. -/
def Command.wellKnownFields : Command → List (FieldArgs × Option WellKnownEncoding)
  | .moveCall _ _ => []
  | .transferObjects objects address =>
      [(.arrayArgs objects, some .objectEnc),
       (.single address, some (.pureEnc "address"))]
  | .splitCoins coin amounts =>
      [(.single coin, some .objectEnc),
       (.arrayArgs amounts, some (.pureEnc "u64"))]
  | .mergeCoins destination sources =>
      [(.single destination, some .objectEnc),
       (.arrayArgs sources, some .objectEnc)]
  | .makeMoveVec objects => [(.arrayArgs objects, some .objectEnc)]
  | .publish _ => []

/-- The input list plus the shared object-lookup queue
(`objectsToResolve`, entries `(id, input index)` in push order). -/
structure ScanState where
  inputs : List TransactionInput
  queue : List (String × Nat)
deriving DecidableEq, Repr

/-- The `encodeInput` closure of the well-known scan: look up the input;
a missing index is fatal; a fully resolved input is left untouched; an
object-kind encoding with a raw string value queues the id for batched
resolution; a pure-kind encoding writes `Inputs.Pure(type, value)` into
the input immediately; anything else is 'Unexpected input format.'. -/
def encodeInputWk (enc : WellKnownEncoding) (st : ScanState) (index : Nat) :
    Except BuildError ScanState :=
  match st.inputs.get? index with
  | none => .error (.missingInput index)
  | some inp =>
    match inp.value with
    | some (.callArg _) => .ok st
    | v =>
      match enc, v with
      | .objectEnc, some (.raw (.str s)) =>
          .ok { st with queue := st.queue ++ [(s, index)] }
      | .pureEnc t, some (.raw rv) =>
          .ok { st with inputs :=
            st.inputs.set index { inp with value := some (.callArg (.pureArg t rv)) } }
      | .pureEnc _, none => .error .pureEncodingFailure
      | _, _ => .error .unexpectedInputFormat

/-- Run `encodeInput` over the `Input`-kind arguments of one field,
skipping Result/NestedResult/GasCoin arguments. -/
def processArgs (enc : WellKnownEncoding) :
    List CommandArgument → ScanState → Except BuildError ScanState
  | [], st => .ok st
  | a :: rest, st =>
    match a with
    | .input i => (encodeInputWk enc st i).bind (processArgs enc rest)
    | _ => processArgs enc rest st

/-- The arguments carried by one field value: a single-argument field is
processed as the one-element batch, an array field element-wise. -/
def fieldArgsList : FieldArgs → List CommandArgument
  | .single a => [a]
  | .arrayArgs as => as

/-- Scan the fields of one non-Move command: fields with no well-known
encoding are left untouched; array fields are processed element-wise. -/
def scanFields : List (FieldArgs × Option WellKnownEncoding) → ScanState →
    Except BuildError ScanState
  | [], st => .ok st
  | (fa, encOpt) :: rest, st =>
    match encOpt with
    | none => scanFields rest st
    | some enc => (processArgs enc (fieldArgsList fa) st).bind (scanFields rest)

/-- `needsResolution` for a Move call: some argument is an `Input` whose
input value is not yet a `BuilderCallArg`
(`!is(this.#inputs[arg.index].value, BuilderCallArg)`). Reading `.value`
of a missing input is a JavaScript `TypeError`. -/
def moveNeedsResolution (inputs : List TransactionInput) :
    List CommandArgument → Except BuildError Bool
  | [] => .ok false
  | a :: rest =>
    match a with
    | .input i =>
      match inputs.get? i with
      | none => .error .typeErrorUndefined
      | some inp =>
        match inp.value with
        | some (.callArg _) => moveNeedsResolution inputs rest
        | _ => .ok true
    | _ => moveNeedsResolution inputs rest

/-- A Move call pending signature resolution: its target and arguments. -/
abbrev MoveCallPending : Type := String × List CommandArgument

/-- The `this.#commands.forEach` loop: Move calls that need resolution
are collected into `moveModulesToResolve`; every other command is run
through the well-known scan. -/
def stage3 : List Command → ScanState → List MoveCallPending →
    Except BuildError (ScanState × List MoveCallPending)
  | [], st, pending => .ok (st, pending)
  | c :: rest, st, pending =>
    match c with
    | .moveCall target args =>
      (moveNeedsResolution st.inputs args).bind fun needs =>
        stage3 rest st (if needs then pending ++ [(target, args)] else pending)
    | _ => (scanFields c.wellKnownFields st).bind fun st' => stage3 rest st' pending

/-! ## Stage 4: Move-call signature resolution -/

/-- Drop the trailing implicit `TxContext` parameter:
`hasTxContext = parameters.length > 0 && isTxContext(parameters.at(-1))`,
then `parameters.slice(0, length - 1)`. -/
def dropTxContext (params : List ParamTy) : List ParamTy :=
  match params.getLast? with
  | some lastParam => if isTxContext lastParam then params.dropLast else params
  | none => params

/-- The guard at Transaction.ts:411,
`is(this.#inputs[arg.index], BuilderCallArg)`: a superstruct test of the
*input record* (shape `{kind, index, value}`) against the
`BuilderCallArg` union (records of shape `{Pure}` or `{Object}`).
superstruct object schemas reject unknown keys, so an input record never
matches either branch and the test is constantly `false` — the guard
never skips anything. (Note the contrast with the scan's correct
`is(input.value, BuilderCallArg)` at lines 319 and 352.) -/
def inputMatchesBuilderCallArg (_inp : Option TransactionInput) : Bool := false

/-- Resolve one (parameter, argument) pair of a Move call (the
`params.forEach` body): non-`Input` arguments are skipped; the
(ineffective, see `inputMatchesBuilderCallArg`) resolved-input guard;
then pure encoding, object queueing for struct/type-parameter
parameters (the value must be an object-id string), or the fatal
unknown-argument-type error. -/
def resolveMoveArg (st : ScanState) (p : ParamTy) (arg : CommandArgument) :
    Except BuildError ScanState :=
  match arg with
  | .input idx =>
    if inputMatchesBuilderCallArg (st.inputs.get? idx) then .ok st
    else
      match st.inputs.get? idx with
      | none => .error .typeErrorUndefined
      | some inp =>
        match getPureSerializationType p inp.value, p, inp.value with
        | some serType, _, some (.raw rv) =>
            .ok { st with inputs :=
              st.inputs.set idx { inp with value := some (.callArg (.pureArg serType rv)) } }
        | _, p', v =>
          if (extractStructTag p').isSome || isTypeParameter p' then
            match v with
            | some (.raw (.str s)) => .ok { st with queue := st.queue ++ [(s, idx)] }
            | _ => .error .expectObjectIdString
          else .error .unknownCallArgType
  | _ => .ok st

/-- Fold `resolveMoveArg` over the parameter/argument pairs in order
(`params.forEach((param, i) => ... moveCall.arguments[i] ...)`; the two
lists have equal length when this runs, so pairing positionally is the
same as indexing). -/
def resolveZipped : List (ParamTy × CommandArgument) → ScanState →
    Except BuildError ScanState
  | [], st => .ok st
  | (p, a) :: rest, st => (resolveMoveArg st p a).bind (resolveZipped rest)

/-- Resolve one pending Move call: split the target, fetch the
normalized function, drop a trailing `TxContext`, require the remaining
parameter count to equal the argument count exactly
('Incorrect number of arguments.'), then resolve each pair. -/
def resolveMoveCall (env : Env) (st : ScanState) (mc : MoveCallPending) :
    Except BuildError ScanState :=
  let parts := splitTarget mc.1
  let normalized := env.normalizedMoveFunction
    (normalizeSuiObjectId parts.1) parts.2.1 parts.2.2
  let params := dropTxContext normalized.parameters
  if params.length ≠ mc.2.length then .error .incorrectNumberOfArguments
  else resolveZipped (params.zip mc.2) st

/-- Run stage 4 over every pending Move call (one
`getNormalizedMoveFunction` request each; the source issues them through
`Promise.all` — the embedding fixes the in-order schedule), returning
the result and the requests issued. -/
def stage4 (env : Env) : List MoveCallPending → ScanState →
    Except BuildError ScanState × List Request
  | [], st => (.ok st, [])
  | mc :: rest, st =>
    let parts := splitTarget mc.1
    let req := Request.normalizedMoveFunction
      (normalizeSuiObjectId parts.1) parts.2.1 parts.2.2
    match resolveMoveCall env st mc with
    | .error e => (.error e, [req])
    | .ok st' =>
      let (r, reqs) := stage4 env rest st'
      (r, req :: reqs)

/-! ## Stage 5: batched object resolution -/

/-- Encode one fetched object into a call-arg: shared objects become
`Inputs.SharedObjectRef` carrying the *queued* id, the initial shared
version and `mutable = true` ('Defaulted to True to match current
behavior.'); all others become `Inputs.ObjectRef` of the fetched
reference. -/
def encodeResolvedObject (id : String) (meta : ObjectMeta) : CallArg :=
  match meta.sharedInitialVersion with
  | some v => .sharedObjectRef id v true
  | none => .objectRef { objectId := meta.objectId, version := meta.version,
                         digest := meta.digest }

/-- The `objects.forEach` write-back: result `i` of the batch is written
into the input that queued entry `i`, positionally. An identifier with
no metadata fails to resolve and aborts the build (modelled from the
spec §4.5; the response-unpacking helpers are not under `src/`). -/
def writeBackObjects (env : Env) : List (String × Nat) →
    List TransactionInput → Except BuildError (List TransactionInput)
  | [], inputs => .ok inputs
  | (id, idx) :: rest, inputs =>
    match env.objectMeta id with
    | none => .error (.objectLookupFailure id)
    | some meta =>
      match inputs.get? idx with
      | none => .error .typeErrorUndefined
      | some inp =>
        writeBackObjects env rest
          (inputs.set idx { inp with value := some (.callArg (encodeResolvedObject id meta)) })

/-- Stage 5: skip entirely when the queue is empty, otherwise issue one
batched request for all queued ids and write the results back. -/
def stage5 (env : Env) (st : ScanState) :
    Except BuildError (List TransactionInput) × List Request :=
  if st.queue.isEmpty then (.ok st.inputs, [])
  else (writeBackObjects env st.queue st.inputs,
        [Request.objectBatch (st.queue.map Prod.fst)])

/-! ## Stages 6–7: completeness check and assembly -/

/-- `this.#inputs.map((input) => { assert(input.value, BuilderCallArg);
return input.value; })`: every input must now hold a resolved call-arg. -/
def resolveFinalInputs : List TransactionInput → Except BuildError (List CallArg)
  | [] => .ok []
  | inp :: rest =>
    match inp.value with
    | some (.callArg c) => (resolveFinalInputs rest).map (c :: ·)
    | _ => .error .unresolvedInput

/-- The expiration stored in `TransactionData`:
`this.#expiration ? this.#expiration : { None: true }` (both `undefined`
and `null` are falsy). -/
inductive ExpirationData where
  | noExpiration
  | epoch (e : Int)
deriving DecidableEq, Repr

/-- The `gasData` record of `TransactionData`. -/
structure GasData where
  payment : List SuiObjectRef
  owner : String
  price : String
  budget : String
deriving DecidableEq, Repr

/-- The assembled `TransactionData` (the payload handed to the canonical
bcs encoding, which is a deterministic function of this record and lives
outside `src/`): sender, expiration, gas data, and the programmable
transaction body of resolved inputs plus commands. -/
structure TransactionData where
  sender : String
  expiration : ExpirationData
  gasData : GasData
  inputs : List CallArg
  commands : List Command
deriving DecidableEq, Repr

/-- JavaScript falsiness of an optional string field (`!x`): absent or
empty. -/
def strFalsy : Option String → Bool
  | none => true
  | some s => s.isEmpty

/-- `Transaction#build`: validate budget, payment, sender (in that
order, before any external call); fill the gas price from the provider
if unset; run the well-known scan, Move resolution and batched object
resolution; resolve all inputs down to call-args; assemble
`TransactionData` (gas owner defaults to the sender, expiration defaults
to none). Returns the build outcome — the mutated builder state plus the
payload — together with the list of external requests issued. -/
def buildTx (env : Env) (s : Transaction) :
    Except BuildError (Transaction × TransactionData) × List Request :=
  if strFalsy s.gasConfig.budget then (.error .missingGasBudget, [])
  else if s.gasConfig.payment.isNone then (.error .missingGasPayment, [])
  else if strFalsy s.sender then (.error .missingSender, [])
  else
    let (price, priceLog) :=
      if strFalsy s.gasConfig.price then
        (toString env.referenceGasPrice, [Request.referenceGasPrice])
      else (s.gasConfig.price.getD "", ([] : List Request))
    let s1 : Transaction :=
      { s with gasConfig := { s.gasConfig with price := some price } }
    match stage3 s1.commands { inputs := s1.inputs, queue := [] } [] with
    | .error e => (.error e, priceLog)
    | .ok (st3, pending) =>
      match stage4 env pending st3 with
      | (.error e, reqs4) => (.error e, priceLog ++ reqs4)
      | (.ok st4, reqs4) =>
        match stage5 env st4 with
        | (.error e, reqs5) => (.error e, priceLog ++ reqs4 ++ reqs5)
        | (.ok finalInputs, reqs5) =>
          match resolveFinalInputs finalInputs with
          | .error e => (.error e, priceLog ++ reqs4 ++ reqs5)
          | .ok callArgs =>
            let sender := s.sender.getD ""
            let data : TransactionData :=
              { sender
                expiration := match s.expiration with
                  | some (some e) => .epoch e
                  | _ => .noExpiration
                gasData :=
                  { payment := (s.gasConfig.payment.getD [])
                    owner := s.gasConfig.owner.getD sender
                    price
                    budget := s.gasConfig.budget.getD "" }
                inputs := callArgs
                commands := s.commands }
            (.ok ({ s1 with inputs := finalInputs }, data),
             priceLog ++ reqs4 ++ reqs5)

/-! ## Concrete instances used by evaluations and witnesses -/

/-- A gas-payment object reference. -/
def refA : SuiObjectRef := { objectId := "0xgas", version := 1, digest := "dg" }

/-- A builder with sender, expiration and one fully resolved input. -/
def sC1 : Transaction :=
  { sender := some "0xSender"
    expiration := some (some 3)
    gasConfig := { budget := some "100", price := some "1", payment := some [refA] }
    inputs := [{ index := 0, value := some (.callArg (.pureArg "u64" (.num 5))) }]
    commands := [] }

/-- A builder with a single input holding an unresolved raw object-id
string. -/
def sC2 : Transaction :=
  { inputs := [{ index := 0, value := some (.raw (.str "0x2")) }] }

/-- A builder with a single input whose value was never provided. -/
def sNoValue : Transaction :=
  { inputs := [{ index := 0, value := none }] }

/-! ## C1: snapshot round trip -/

/-- C1. The claim says `restore(serialize(b))` preserves inputs, commands,
gas config, sender and expiration. On a fully resolved builder with a
sender and an expiration set, the round trip preserves inputs, commands
and gas config but returns `none` for sender and expiration: `serialize`
never writes the optional `sender`/`expiration` keys of the snapshot
record, even though `SerializedTransactionBuilder` declares them and
`Transaction.from` reads them back. -/
theorem snapshot_roundtrip_loses_sender_and_expiration :
    sC1.serialize.bind Transaction.fromSerialized
        = .ok { sC1 with sender := none, expiration := none }
      ∧ sC1.sender = some "0xSender"
      ∧ sC1.expiration = some (some 3)
      ∧ sC1.inputs.all TransactionInput.isResolved = true := by
  decide

/-! ## C2: serialize precondition -/

/-- C2, counterexample. The claim says `serialize` fails with the
"must resolve before serializing" error whenever some input still holds a
raw (unresolved) value. A builder whose only input holds the raw string
`"0x2"` — not a resolved call-arg — serializes successfully: the guard
only checks `!!input.value` (JavaScript truthiness), not resolvedness. -/
theorem serialize_accepts_unresolved_raw_input :
    sC2.serialize = .ok { version := 1
                          sender := none
                          expiration := none
                          inputs := sC2.inputs
                          commands := []
                          gasConfig := {} }
      ∧ sC2.inputs.all TransactionInput.isResolved = false := by
  decide

/-- C2, amended: `serialize` succeeds exactly when every input's value is
present and JavaScript-truthy (a resolved call-arg always is; a raw value
counts when truthy); otherwise it fails with the
'All input values must be provided before serializing.' error. -/
theorem serialize_succeeds_iff_values_provided (s : Transaction) :
    serializeSucceeds s = s.inputs.all (fun i => valueProvided i.value)
    ∧ (s.inputs.all (fun i => valueProvided i.value) = false →
        s.serialize = .error .serializeUnprovidedInput) := by
  constructor
  · unfold serializeSucceeds Transaction.serialize
    by_cases h : s.inputs.all (fun i => valueProvided i.value) <;> simp [h]
  · intro h
    unfold Transaction.serialize
    simp [h]

/-- C2 witness: on the builder whose input value was never provided, the
amended theorem yields the "must be provided" error. -/
theorem serialize_succeeds_iff_values_provided_witness :
    sNoValue.serialize = .error .serializeUnprovidedInput :=
  (serialize_succeeds_iff_values_provided sNoValue).2 (by decide)

/-! ## C3: resolved inputs during build -/

/-- Environment for the Move-resolution run: the fetched signature has
two struct (object) parameters. -/
def envC3 : Env :=
  { referenceGasPrice := 1
    normalizedMoveFunction := fun _ _ _ =>
      { parameters := [.structTy "0x2::coin::Coin", .structTy "0x2::coin::Coin"] }
    objectMeta := fun _ => none }

/-- A builder whose Move call references input 0 (already resolved to an
owned-object call-arg) and input 1 (still a raw object-id string). -/
def sC3 : Transaction :=
  { sender := some "0xS"
    gasConfig := { budget := some "100", price := some "1", payment := some [refA] }
    inputs := [{ index := 0, value := some (.callArg (.objectRef
                   { objectId := "0xa", version := 1, digest := "d" })) },
               { index := 1, value := some (.raw (.str "0xb")) }]
    commands := [.moveCall "0x2::m::f" [.input 0, .input 1]] }

/-- C3. The claim says a resolution stage leaves an already-resolved
input's value unchanged. Move-call resolution does not: its
already-resolved guard tests the input record instead of the record's
`.value` (Transaction.ts:411) and therefore never skips, so on a Move
call mixing one resolved object input with one raw input the build
aborts with the 'Expect the argument to be an object id string' error at
the resolved input instead of leaving it untouched. -/
theorem move_resolution_aborts_on_already_resolved_input :
    (buildTx envC3 sC3).1 = .error .expectObjectIdString
      ∧ (sC3.inputs.get? 0).map TransactionInput.isResolved = some true := by
  decide

/-! ## C7: nested-result stability -/

/-- The cache invariant of a result reference for command `index`: every
populated slot `j` holds `NestedResult(index, j)`. -/
def cacheWF (index : Nat) (cache : List (Option CommandArgument)) : Prop :=
  ∀ j v, cache.getD j none = some v → v = .nestedResult index j

theorem cacheWF_nil (index : Nat) : cacheWF index [] := by
  intro j v h
  simp [List.getD_nil] at h

/-- Sparse-array update/read law for the nested-result cache. -/
theorem getD_setSparse (c : List (Option CommandArgument)) (k : Nat)
    (v : CommandArgument) : ∀ j, (setSparse c k v).getD j none
      = if j = k then some v else c.getD j none := by
  induction c generalizing k with
  | nil =>
    induction k with
    | zero => intro j; cases j <;> simp [setSparse]
    | succ k ih =>
      intro j
      cases j with
      | zero => simp [setSparse]
      | succ j => simpa [setSparse, Nat.succ_inj] using ih j
  | cons c0 rest ih =>
    intro j
    cases k with
    | zero => cases j <;> simp [setSparse]
    | succ k =>
      cases j with
      | zero => simp [setSparse]
      | succ j => simpa [setSparse, Nat.succ_inj] using ih k j

theorem nestedResultFor_fst (index : Nat) (cache : List (Option CommandArgument))
    (k : Nat) (h : cacheWF index cache) :
    (nestedResultFor index cache k).1 = .nestedResult index k := by
  unfold nestedResultFor
  cases hc : cache.getD k none with
  | none => simp
  | some v => simpa using h k v hc

theorem nestedResultFor_wf (index : Nat) (cache : List (Option CommandArgument))
    (k : Nat) (h : cacheWF index cache) :
    cacheWF index (nestedResultFor index cache k).2 := by
  unfold nestedResultFor
  cases hc : cache.getD k none with
  | some v => simpa using h
  | none =>
    intro j v hv
    simp only [] at hv
    rw [getD_setSparse] at hv
    by_cases hj : j = k
    · subst hj
      simp at hv
      exact hv.symm
    · exact h j v (by simpa [hj] using hv)

theorem foldl_requests_wf (index : Nat) : ∀ (ks : List Nat)
    (cache : List (Option CommandArgument)), cacheWF index cache →
    cacheWF index (ks.foldl (fun c k => (nestedResultFor index c k).2) cache) := by
  intro ks
  induction ks with
  | nil => intro cache h; simpa using h
  | cons k rest ih => intro cache h; exact ih _ (nestedResultFor_wf _ _ _ h)

/-- C7: after any sequence of position requests against a Result
Reference for command `index`, requesting position `k` returns
`NestedResult(index, k)`, requesting it again returns the same
(memoized) value, and the reference used in singular form is
`Result(index)`. -/
theorem nestedResult_stable (index k : Nat) (ks : List Nat) :
    (nestedResultFor index (runRequests index ks) k).1 = .nestedResult index k
    ∧ (nestedResultFor index (nestedResultFor index (runRequests index ks) k).2 k).1
        = (nestedResultFor index (runRequests index ks) k).1
    ∧ baseResult index = .result index := by
  have hwf : cacheWF index (runRequests index ks) :=
    foldl_requests_wf index ks [] (cacheWF_nil index)
  refine ⟨nestedResultFor_fst _ _ _ hwf, ?_, rfl⟩
  rw [nestedResultFor_fst _ _ _ hwf,
    nestedResultFor_fst _ _ _ (nestedResultFor_wf _ _ _ hwf)]

/-! ## C10: append-only index stability -/

theorem applyOp_extends (s : Transaction) (op : BuilderOp) :
    ∃ l1 l2, (applyOp s op).inputs = s.inputs ++ l1
      ∧ (applyOp s op).commands = s.commands ++ l2 := by
  cases op with
  | addInput v =>
    exact ⟨[{ index := s.inputs.length, value := v }], [], rfl,
      by simp [applyOp, Transaction.input]⟩
  | addCommand c =>
    exact ⟨[], [c], by simp [applyOp, Transaction.add], rfl⟩
  | setSender x =>
    exact ⟨[], [], by simp [applyOp, Transaction.setSender],
      by simp [applyOp, Transaction.setSender]⟩
  | setExpiration e =>
    exact ⟨[], [], by simp [applyOp, Transaction.setExpiration],
      by simp [applyOp, Transaction.setExpiration]⟩
  | setGasPrice p =>
    exact ⟨[], [], by simp [applyOp, Transaction.setGasPrice],
      by simp [applyOp, Transaction.setGasPrice]⟩
  | setGasBudget b =>
    exact ⟨[], [], by simp [applyOp, Transaction.setGasBudget],
      by simp [applyOp, Transaction.setGasBudget]⟩
  | setGasPayment p =>
    exact ⟨[], [], by simp [applyOp, Transaction.setGasPayment],
      by simp [applyOp, Transaction.setGasPayment]⟩

theorem applyOps_extends (s : Transaction) (ops : List BuilderOp) :
    ∃ l1 l2, (applyOps s ops).inputs = s.inputs ++ l1
      ∧ (applyOps s ops).commands = s.commands ++ l2 := by
  induction ops generalizing s with
  | nil => exact ⟨[], [], by simp [applyOps], by simp [applyOps]⟩
  | cons op rest ih =>
    obtain ⟨d1, d2, hd1, hd2⟩ := applyOp_extends s op
    obtain ⟨l1, l2, h1, h2⟩ := ih (applyOp s op)
    refine ⟨d1 ++ l1, d2 ++ l2, ?_, ?_⟩
    · show (applyOps (applyOp s op) rest).inputs = _
      rw [h1, hd1, List.append_assoc]
    · show (applyOps (applyOp s op) rest).commands = _
      rw [h2, hd2, List.append_assoc]

/-- C10: every index assigned at creation survives any later sequence of
builder mutations unchanged — existing input/command slots are never
reordered, deleted or rewritten; `input()` appends at index equal to the
current input-list length and returns a handle carrying that index;
`add()` appends the command at the end and binds its result reference to
that permanent position. -/
theorem append_only_index_stability (s : Transaction) (ops : List BuilderOp)
    (v : Option InputValue) (c : Command) :
    (∀ i, i < s.inputs.length →
      (applyOps s ops).inputs.get? i = s.inputs.get? i)
    ∧ (∀ i, i < s.commands.length →
      (applyOps s ops).commands.get? i = s.commands.get? i)
    ∧ (s.input v).2.index = s.inputs.length
    ∧ (s.input v).1.inputs.get? s.inputs.length
        = some { index := s.inputs.length, value := v }
    ∧ (s.add c).2 = s.commands.length
    ∧ (s.add c).1.commands.get? s.commands.length = some c := by
  obtain ⟨l1, l2, h1, h2⟩ := applyOps_extends s ops
  refine ⟨?_, ?_, rfl, ?_, ?_, ?_⟩
  · intro i hi
    rw [h1, List.get?_append hi]
  · intro i hi
    rw [h2, List.get?_append hi]
  · simp [Transaction.input]
  · simp [Transaction.add]
  · simp [Transaction.add]

/-! ## C5: Move-call arity -/

/-- C5: for a Move call whose fetched signature ends in the implicit
execution-context parameter, that parameter is dropped, and resolution
fails with 'Incorrect number of arguments.' whenever the remaining
parameter count differs from the supplied argument count — and can
succeed only when the two counts are exactly equal. -/
theorem moveCall_arity_after_txContext_drop (env : Env) (st : ScanState)
    (target : String) (args : List CommandArgument)
    (ps : List ParamTy) (ctx : ParamTy)
    (hctx : isTxContext ctx = true)
    (hfetch : (env.normalizedMoveFunction
        (normalizeSuiObjectId (splitTarget target).1)
        (splitTarget target).2.1 (splitTarget target).2.2).parameters
      = ps ++ [ctx]) :
    (ps.length ≠ args.length →
        resolveMoveCall env st (target, args) = .error .incorrectNumberOfArguments)
    ∧ ∀ st', resolveMoveCall env st (target, args) = .ok st' →
        ps.length = args.length := by
  have hdrop : dropTxContext (ps ++ [ctx]) = ps := by
    unfold dropTxContext
    rw [List.getLast?_concat]
    simp [hctx, List.dropLast_concat]
  constructor
  · intro hne
    simp only [resolveMoveCall, hfetch, hdrop]
    simp [hne]
  · intro st' hok
    by_contra hne
    simp only [resolveMoveCall, hfetch, hdrop] at hok
    simp [hne] at hok

/-- Environment for the arity example: a 3-parameter signature whose
last parameter is the implicit context. -/
def envC5 : Env :=
  { referenceGasPrice := 1
    normalizedMoveFunction := fun _ _ _ =>
      { parameters := [.structTy "0x2::coin::Coin", .pureTy "u64", .txContextRef] }
    objectMeta := fun _ => none }

/-- Scan state for the arity example: a raw object-id input and a raw
numeric input. -/
def stC5 : ScanState :=
  { inputs := [{ index := 0, value := some (.raw (.str "0x5")) },
               { index := 1, value := some (.raw (.num 100)) }]
    queue := [] }

/-- The state after successfully resolving the 2-argument call: the
numeric input is pure-encoded and the object id is queued. -/
def stC5out : ScanState :=
  { inputs := [{ index := 0, value := some (.raw (.str "0x5")) },
               { index := 1, value := some (.callArg (.pureArg "u64" (.num 100))) }]
    queue := [("0x5", 0)] }

/-- C5 witness: with the context-terminated 3-parameter signature, 3
supplied arguments fail with the count-mismatch error while 2 supplied
arguments resolve successfully. -/
theorem moveCall_arity_after_txContext_drop_witness :
    resolveMoveCall envC5 stC5 ("0x2::pay::split", [.input 0, .input 1, .input 0])
        = .error .incorrectNumberOfArguments
      ∧ resolveMoveCall envC5 stC5 ("0x2::pay::split", [.input 0, .input 1])
        = .ok stC5out := by
  refine ⟨?_, by decide⟩
  exact (moveCall_arity_after_txContext_drop envC5 stC5 "0x2::pay::split"
    [.input 0, .input 1, .input 0]
    [.structTy "0x2::coin::Coin", .pureTy "u64"] .txContextRef rfl rfl).1
    (by decide)

/-! ## C9: fail-fast validation -/

/-- C9: a builder missing the gas budget, the gas payment or the sender
fails build with the corresponding missing-required-field error while
issuing no external request at all. -/
theorem build_fail_fast_missing_required_field (env : Env) (s : Transaction)
    (h : strFalsy s.gasConfig.budget = true ∨ s.gasConfig.payment = none
        ∨ strFalsy s.sender = true) :
    buildTx env s = (.error .missingGasBudget, [])
    ∨ buildTx env s = (.error .missingGasPayment, [])
    ∨ buildTx env s = (.error .missingSender, []) := by
  by_cases hb : strFalsy s.gasConfig.budget = true
  · exact .inl (by simp [buildTx, hb])
  · by_cases hp : s.gasConfig.payment = none
    · refine .inr (.inl ?_)
      simp [buildTx, hb, hp]
    · have hs : strFalsy s.sender = true := by
        rcases h with h | h | h
        · exact absurd h hb
        · exact absurd h hp
        · exact h
      have hp' : s.gasConfig.payment.isNone = false := by
        cases hpp : s.gasConfig.payment with
        | none => exact absurd hpp hp
        | some _ => simp
      refine .inr (.inr ?_)
      simp [buildTx, hb, hp', hs]

/-- C9 witness: an empty builder fails with one of the three
missing-required-field errors and an empty request log. -/
theorem build_fail_fast_missing_required_field_witness :
    buildTx envC5 {} = (.error .missingGasBudget, [])
    ∨ buildTx envC5 {} = (.error .missingGasPayment, [])
    ∨ buildTx envC5 {} = (.error .missingSender, []) :=
  build_fail_fast_missing_required_field envC5 {} (.inl (by decide))

/-- C10 witness: the stability statement applied to a concrete builder
with one input and one command, after two further additions. -/
theorem append_only_index_stability_witness :
    (applyOps sC3 [.addInput none, .addCommand (.publish [])]).inputs.get? 0
        = sC3.inputs.get? 0
      ∧ (applyOps sC3 [.addInput none, .addCommand (.publish [])]).commands.get? 0
        = sC3.commands.get? 0
      ∧ (sC3.input (some (.raw (.num 7)))).2.index = 2
      ∧ (sC3.add (.publish [])).2 = 1 := by
  have h := append_only_index_stability sC3
    [.addInput none, .addCommand (.publish [])] (some (.raw (.num 7))) (.publish [])
  exact ⟨h.1 0 (by decide), h.2.1 0 (by decide),
    h.2.2.1, h.2.2.2.2.1⟩

/-! ## C4: fatal object-lookup failure -/

theorem writeBackObjects_lookup_failure (env : Env) :
    ∀ q : List (String × Nat), (∃ e ∈ q, env.objectMeta e.1 = none) →
    ∀ inputs : List TransactionInput, (∀ e ∈ q, e.2 < inputs.length) →
    ∃ id, env.objectMeta id = none ∧
      writeBackObjects env q inputs = .error (.objectLookupFailure id) := by
  intro q
  induction q with
  | nil => intro h; simp at h
  | cons e rest ih =>
    obtain ⟨id0, idx0⟩ := e
    intro hfail inputs hrange
    cases hm : env.objectMeta id0 with
    | none =>
      refine ⟨id0, hm, ?_⟩
      simp only [writeBackObjects, hm]
    | some meta =>
      have hfail' : ∃ e ∈ rest, env.objectMeta e.1 = none := by
        obtain ⟨e, he, hme⟩ := hfail
        rcases List.mem_cons.mp he with rfl | hmem
        · exact absurd hme (by simp [hm])
        · exact ⟨e, hmem, hme⟩
      cases hg : inputs.get? idx0 with
      | none =>
        have := List.get?_eq_none.mp hg
        have hlt := hrange (id0, idx0) (List.mem_cons_self _ _)
        omega
      | some inp =>
        have hrange' : ∀ e ∈ rest, e.2 <
            (inputs.set idx0
              { inp with value := some (.callArg (encodeResolvedObject id0 meta)) }).length := by
          intro e he
          rw [List.length_set]
          exact hrange e (List.mem_cons_of_mem _ he)
        obtain ⟨id, hid, hwb⟩ := ih hfail' _ hrange'
        refine ⟨id, hid, ?_⟩
        simp only [writeBackObjects, hm, hg]
        exact hwb

/-- C4: whenever the scan stages complete and some queued object
identifier fails to resolve in the batched fetch, the whole build aborts
with the fatal object-lookup error for a failing identifier — an error
kind distinct from every other failure — and no payload is produced. -/
theorem build_aborts_on_object_lookup_failure (env : Env) (s : Transaction)
    (st3 st4 : ScanState) (pending : List MoveCallPending) (reqs4 : List Request)
    (hb : strFalsy s.gasConfig.budget = false)
    (hp : s.gasConfig.payment.isNone = false)
    (hs : strFalsy s.sender = false)
    (h3 : stage3 s.commands { inputs := s.inputs, queue := [] } [] = .ok (st3, pending))
    (h4 : stage4 env pending st3 = (.ok st4, reqs4))
    (hfail : ∃ e ∈ st4.queue, env.objectMeta e.1 = none)
    (hrange : ∀ e ∈ st4.queue, e.2 < st4.inputs.length) :
    ∃ id, env.objectMeta id = none
      ∧ (buildTx env s).1 = .error (.objectLookupFailure id) := by
  obtain ⟨id, hid, hwb⟩ :=
    writeBackObjects_lookup_failure env st4.queue hfail st4.inputs hrange
  have hne : st4.queue.isEmpty = false := by
    obtain ⟨e, he, _⟩ := hfail
    cases hq : st4.queue with
    | nil => rw [hq] at he; simp at he
    | cons x xs => simp [List.isEmpty]
  refine ⟨id, hid, ?_⟩
  unfold buildTx
  simp only [hb, hp, hs, Bool.false_eq_true, if_false]
  by_cases hpr : strFalsy s.gasConfig.price = true <;>
    simp only [hpr, Bool.false_eq_true, if_true, if_false] <;>
    simp only [h3] <;>
    simp only [h4] <;>
    simp only [stage5, hne, Bool.false_eq_true, if_false] <;>
    simp only [hwb]

/-- Environment in which every object lookup fails. -/
def envC4 : Env :=
  { referenceGasPrice := 1
    normalizedMoveFunction := fun _ _ _ => { parameters := [] }
    objectMeta := fun _ => none }

/-- A builder whose transfer command queues the raw object id "0xdead"
for batched resolution. -/
def sC4 : Transaction :=
  { sender := some "0xS"
    gasConfig := { budget := some "10", price := some "1", payment := some [refA] }
    inputs := [{ index := 0, value := some (.raw (.str "0xdead")) }]
    commands := [.transferObjects [.input 0] .gasCoin] }

/-- The scan state after stage 3 on `sC4`: the id is queued. -/
def stC4 : ScanState :=
  { inputs := sC4.inputs, queue := [("0xdead", 0)] }

/-- C4 witness: with the lookup of "0xdead" failing, the whole build
aborts with the object-lookup error. -/
theorem build_aborts_on_object_lookup_failure_witness :
    ∃ id, envC4.objectMeta id = none
      ∧ (buildTx envC4 sC4).1 = .error (.objectLookupFailure id) :=
  build_aborts_on_object_lookup_failure envC4 sC4 stC4 stC4 [] []
    (by decide) (by decide) (by decide) (by decide) (by decide)
    ⟨("0xdead", 0), by decide, rfl⟩ (by decide)

/-! ## C8: positional write-back of the batched object resolution -/

theorem writeBackObjects_get?_untouched (env : Env) :
    ∀ (q : List (String × Nat)) (inputs out : List TransactionInput),
    writeBackObjects env q inputs = .ok out →
    ∀ idx, (∀ e ∈ q, e.2 ≠ idx) → out.get? idx = inputs.get? idx := by
  intro q
  induction q with
  | nil =>
    intro inputs out hok idx _
    simp only [writeBackObjects, Except.ok.injEq] at hok
    rw [hok]
  | cons e rest ih =>
    obtain ⟨id0, idx0⟩ := e
    intro inputs out hok idx hne
    simp only [writeBackObjects] at hok
    cases hm : env.objectMeta id0 with
    | none => rw [hm] at hok; cases hok
    | some meta =>
      rw [hm] at hok
      cases hg : inputs.get? idx0 with
      | none => rw [hg] at hok; cases hok
      | some inp0 =>
        rw [hg] at hok
        have hstep := ih _ _ hok idx fun e he => hne e (List.mem_cons_of_mem _ he)
        rw [hstep, List.get?_set_ne _ _
          (hne (id0, idx0) (List.mem_cons_self _ _))]

/-- C8: when the batched write-back succeeds and no two queue entries
target the same input slot, every queued identifier's resolved reference
is written into exactly the input that queued it — matched positionally —
with shared objects encoded as shared-object refs carrying the initial
shared version and mutability `true`, and all others as owned-object
refs carrying id, version and digest. -/
theorem object_resolution_positional_mapping (env : Env) :
    ∀ (q : List (String × Nat)) (inputs out : List TransactionInput),
    (q.map Prod.snd).Nodup →
    writeBackObjects env q inputs = .ok out →
    ∀ id idx, (id, idx) ∈ q →
      ∃ meta inp, env.objectMeta id = some meta ∧ inputs.get? idx = some inp ∧
        out.get? idx = some { inp with value := some (.callArg
          (match meta.sharedInitialVersion with
           | some v => .sharedObjectRef id v true
           | none => .objectRef { objectId := meta.objectId
                                  version := meta.version
                                  digest := meta.digest })) } := by
  intro q
  induction q with
  | nil => intro inputs out _ _ id idx hmem; simp at hmem
  | cons e rest ih =>
    obtain ⟨id0, idx0⟩ := e
    intro inputs out hnd hok id idx hmem
    simp only [writeBackObjects] at hok
    cases hm : env.objectMeta id0 with
    | none => rw [hm] at hok; cases hok
    | some meta0 =>
      rw [hm] at hok
      cases hg : inputs.get? idx0 with
      | none => rw [hg] at hok; cases hok
      | some inp0 =>
        rw [hg] at hok
        rw [List.map_cons] at hnd
        have hnd' := List.nodup_cons.mp hnd
        rcases List.mem_cons.mp hmem with heq | hmem'
        · have hid : id = id0 := congrArg Prod.fst heq
          have hidx : idx = idx0 := congrArg Prod.snd heq
          subst hid
          subst hidx
          refine ⟨meta0, inp0, hm, hg, ?_⟩
          have huntouched := writeBackObjects_get?_untouched env rest _ _ hok idx
            (fun e he hc => hnd'.1 (List.mem_map.mpr ⟨e, he, hc⟩))
          rw [huntouched, List.get?_set_eq_of_lt _
            (List.get?_eq_some.mp hg).1]
          have hencode : encodeResolvedObject id meta0
              = (match meta0.sharedInitialVersion with
                 | some v => CallArg.sharedObjectRef id v true
                 | none => CallArg.objectRef { objectId := meta0.objectId
                                               version := meta0.version
                                               digest := meta0.digest }) := by
            unfold encodeResolvedObject
            rfl
          rw [← hencode]
        · have hidx : idx ≠ idx0 := by
            intro hc
            exact hnd'.1 (by simpa [hc] using List.mem_map_of_mem Prod.snd hmem')
          obtain ⟨meta, inp, h1, h2, h3⟩ := ih _ _ hnd'.2 hok id idx hmem'
          refine ⟨meta, inp, h1, ?_, h3⟩
          rw [← h2, List.get?_set_ne _ _ (fun hc => hidx hc.symm)]

/-- Environment for the positional-mapping example: one owned object and
one shared object. -/
def envC8 : Env :=
  { referenceGasPrice := 1
    normalizedMoveFunction := fun _ _ _ => { parameters := [] }
    objectMeta := fun id =>
      if id = "0xaa" then
        some { objectId := "0xaa", version := 7, digest := "da",
               sharedInitialVersion := none }
      else if id = "0xbb" then
        some { objectId := "0xbb", version := 9, digest := "db",
               sharedInitialVersion := some 4 }
      else none }

/-- Inputs that queued the two identifiers. -/
def inputsC8 : List TransactionInput :=
  [{ index := 0, value := some (.raw (.str "0xaa")) },
   { index := 1, value := some (.raw (.str "0xbb")) }]

/-- The queue in queueing order. -/
def qC8 : List (String × Nat) := [("0xaa", 0), ("0xbb", 1)]

/-- The write-back result: slot 0 owned ref, slot 1 shared ref. -/
def outC8 : List TransactionInput :=
  [{ index := 0, value := some (.callArg (.objectRef
      { objectId := "0xaa", version := 7, digest := "da" })) },
   { index := 1, value := some (.callArg (.sharedObjectRef "0xbb" 4 true)) }]

/-- C8 witness: the shared identifier "0xbb", queued second, lands in
input slot 1 as a shared-object ref with its initial version and
mutability `true`. -/
theorem object_resolution_positional_mapping_witness :
    ∃ meta inp, envC8.objectMeta "0xbb" = some meta
      ∧ inputsC8.get? 1 = some inp
      ∧ outC8.get? 1 = some { inp with value := some (.callArg
          (match meta.sharedInitialVersion with
           | some v => .sharedObjectRef "0xbb" v true
           | none => .objectRef { objectId := meta.objectId
                                  version := meta.version
                                  digest := meta.digest })) } :=
  object_resolution_positional_mapping envC8 qC8 inputsC8 outC8
    (by decide) (by decide) "0xbb" 1 (by decide)

/-! ## C6: build idempotence on a fully resolved builder -/

/-- Every input already holds a resolved call-arg. -/
def allResolvedB (inputs : List TransactionInput) : Bool :=
  inputs.all TransactionInput.isResolved

/-- Every `Input`-kind argument refers to an index inside the input
list. -/
def argsInRangeB (n : Nat) (args : List CommandArgument) : Bool :=
  args.all fun a => match a with
    | .input i => decide (i < n)
    | _ => true

/-- All argument indices of a command are inside the input list. -/
def Command.argIndicesOK (n : Nat) : Command → Bool
  | .moveCall _ args => argsInRangeB n args
  | c => c.wellKnownFields.all fun fe => argsInRangeB n (fieldArgsList fe.1)

/-- All commands of the builder reference only existing inputs. -/
def commandsOK (s : Transaction) : Bool :=
  s.commands.all (Command.argIndicesOK s.inputs.length)

/-- The call-args held by the resolved inputs, in order. -/
def extractArgs : List TransactionInput → List CallArg
  | [] => []
  | inp :: rest =>
    match inp.value with
    | some (.callArg c) => c :: extractArgs rest
    | _ => extractArgs rest

theorem toDigitsCore_len_le (b fuel : Nat) : ∀ (n : Nat) (ds : List Char),
    ds.length ≤ (Nat.toDigitsCore b fuel n ds).length := by
  induction fuel with
  | zero => intro n ds; simp [Nat.toDigitsCore]
  | succ f ih =>
    intro n ds
    simp only [Nat.toDigitsCore]
    split
    · simp
    · exact le_trans (by simp) (ih _ _)

/-- `String(n)` for a natural number is never the empty string. -/
theorem toString_nat_ne_empty (n : Nat) : toString n ≠ "" := by
  show Nat.repr n ≠ ""
  unfold Nat.repr
  intro h
  have hd : Nat.toDigits 10 n = [] := by
    have := congrArg String.data h
    simpa [List.asString] using this
  have h1 : 1 ≤ (Nat.toDigits 10 n).length := by
    unfold Nat.toDigits
    simp only [Nat.toDigitsCore]
    split
    · simp
    · exact le_trans (by simp) (toDigitsCore_len_le _ _ _ _)
  rw [hd] at h1
  simp at h1

theorem encodeInputWk_resolved (enc : WellKnownEncoding) (st : ScanState)
    (i : Nat) (hres : allResolvedB st.inputs = true)
    (hi : i < st.inputs.length) : encodeInputWk enc st i = .ok st := by
  cases hg : st.inputs.get? i with
  | none =>
    have := List.get?_eq_none.mp hg
    omega
  | some inp =>
    have hr := List.all_eq_true.mp hres inp (List.get?_mem hg)
    unfold TransactionInput.isResolved at hr
    cases hv : inp.value with
    | none => rw [hv] at hr; simp at hr
    | some iv =>
      cases iv with
      | raw rv => rw [hv] at hr; simp at hr
      | callArg c =>
        unfold encodeInputWk
        simp only [hg, hv]

theorem processArgs_resolved (enc : WellKnownEncoding) :
    ∀ (args : List CommandArgument) (st : ScanState),
    allResolvedB st.inputs = true →
    argsInRangeB st.inputs.length args = true →
    processArgs enc args st = .ok st := by
  intro args
  induction args with
  | nil => intro st _ _; rfl
  | cons a rest ih =>
    intro st hres hrange
    unfold argsInRangeB at hrange
    rw [List.all_cons, Bool.and_eq_true] at hrange
    obtain ⟨h1, h2⟩ := hrange
    cases a with
    | input i =>
      have hi : i < st.inputs.length := of_decide_eq_true h1
      show (encodeInputWk enc st i).bind (processArgs enc rest) = .ok st
      rw [encodeInputWk_resolved enc st i hres hi]
      exact ih st hres h2
    | gasCoin => exact ih st hres h2
    | result j => exact ih st hres h2
    | nestedResult j k => exact ih st hres h2

theorem scanFields_resolved :
    ∀ (fields : List (FieldArgs × Option WellKnownEncoding)) (st : ScanState),
    allResolvedB st.inputs = true →
    (fields.all fun fe => argsInRangeB st.inputs.length (fieldArgsList fe.1)) = true →
    scanFields fields st = .ok st := by
  intro fields
  induction fields with
  | nil => intro st _ _; rfl
  | cons fe rest ih =>
    intro st hres hrange
    rw [List.all_cons, Bool.and_eq_true] at hrange
    obtain ⟨h1, h2⟩ := hrange
    obtain ⟨fa, encOpt⟩ := fe
    cases encOpt with
    | none => exact ih st hres h2
    | some enc =>
      show (processArgs enc (fieldArgsList fa) st).bind (scanFields rest) = .ok st
      rw [processArgs_resolved enc (fieldArgsList fa) st hres h1]
      exact ih st hres h2

theorem moveNeedsResolution_resolved (inputs : List TransactionInput)
    (hres : allResolvedB inputs = true) :
    ∀ args : List CommandArgument, argsInRangeB inputs.length args = true →
    moveNeedsResolution inputs args = .ok false := by
  intro args
  induction args with
  | nil => intro _; rfl
  | cons a rest ih =>
    intro hrange
    unfold argsInRangeB at hrange
    rw [List.all_cons, Bool.and_eq_true] at hrange
    obtain ⟨h1, h2⟩ := hrange
    cases a with
    | input i =>
      have hi : i < inputs.length := of_decide_eq_true h1
      cases hg : inputs.get? i with
      | none =>
        have := List.get?_eq_none.mp hg
        omega
      | some inp =>
        have hr := List.all_eq_true.mp hres inp (List.get?_mem hg)
        unfold TransactionInput.isResolved at hr
        cases hv : inp.value with
        | none => rw [hv] at hr; simp at hr
        | some iv =>
          cases iv with
          | raw rv => rw [hv] at hr; simp at hr
          | callArg c =>
            unfold moveNeedsResolution
            simp only [hg, hv]
            exact ih h2
    | gasCoin => exact ih h2
    | result j => exact ih h2
    | nestedResult j k => exact ih h2

theorem resolveFinalInputs_resolved :
    ∀ inputs : List TransactionInput, allResolvedB inputs = true →
    resolveFinalInputs inputs = .ok (extractArgs inputs) := by
  intro inputs
  induction inputs with
  | nil => intro _; rfl
  | cons inp rest ih =>
    intro hres
    unfold allResolvedB at hres
    rw [List.all_cons, Bool.and_eq_true] at hres
    obtain ⟨h1, h2⟩ := hres
    unfold TransactionInput.isResolved at h1
    cases hv : inp.value with
    | none => rw [hv] at h1; simp at h1
    | some iv =>
      cases iv with
      | raw rv => rw [hv] at h1; simp at h1
      | callArg c =>
        unfold resolveFinalInputs extractArgs
        simp only [hv, ih h2, Except.map]

theorem stage3_resolved :
    ∀ (cmds : List Command) (st : ScanState) (pending : List MoveCallPending),
    allResolvedB st.inputs = true →
    cmds.all (Command.argIndicesOK st.inputs.length) = true →
    stage3 cmds st pending = .ok (st, pending) := by
  intro cmds
  induction cmds with
  | nil => intro st pending _ _; rfl
  | cons c rest ih =>
    intro st pending hres hok
    rw [List.all_cons, Bool.and_eq_true] at hok
    obtain ⟨h1, h2⟩ := hok
    cases c with
    | moveCall target args =>
      have h1' : argsInRangeB st.inputs.length args = true := h1
      show (moveNeedsResolution st.inputs args).bind
          (fun needs => stage3 rest st
            (if needs = true then pending ++ [(target, args)] else pending))
        = .ok (st, pending)
      rw [moveNeedsResolution_resolved st.inputs hres args h1']
      show stage3 rest st
        (if false = true then pending ++ [(target, args)] else pending) = _
      rw [if_neg (by simp)]
      exact ih st pending hres h2
    | transferObjects objects address =>
      show (scanFields (Command.transferObjects objects address).wellKnownFields
          st).bind (fun st' => stage3 rest st' pending) = .ok (st, pending)
      rw [scanFields_resolved _ st hres h1]
      exact ih st pending hres h2
    | splitCoins coin amounts =>
      show (scanFields (Command.splitCoins coin amounts).wellKnownFields
          st).bind (fun st' => stage3 rest st' pending) = .ok (st, pending)
      rw [scanFields_resolved _ st hres h1]
      exact ih st pending hres h2
    | mergeCoins destination sources =>
      show (scanFields (Command.mergeCoins destination sources).wellKnownFields
          st).bind (fun st' => stage3 rest st' pending) = .ok (st, pending)
      rw [scanFields_resolved _ st hres h1]
      exact ih st pending hres h2
    | makeMoveVec objects =>
      show (scanFields (Command.makeMoveVec objects).wellKnownFields
          st).bind (fun st' => stage3 rest st' pending) = .ok (st, pending)
      rw [scanFields_resolved _ st hres h1]
      exact ih st pending hres h2
    | publish modules =>
      show (scanFields (Command.publish modules).wellKnownFields
          st).bind (fun st' => stage3 rest st' pending) = .ok (st, pending)
      rw [scanFields_resolved _ st hres h1]
      exact ih st pending hres h2

/-- The gas price build settles on: the stored one when truthy,
otherwise the freshly fetched reference price. -/
def effPrice (env : Env) (s : Transaction) : String :=
  if strFalsy s.gasConfig.price then toString env.referenceGasPrice
  else s.gasConfig.price.getD ""

/-- The price-fill request log. -/
def effPriceLog (_env : Env) (s : Transaction) : List Request :=
  if strFalsy s.gasConfig.price then [Request.referenceGasPrice] else []

/-- The `TransactionData` assembled from a builder and a settled price. -/
def assembleData (s : Transaction) (price : String) : TransactionData :=
  { sender := s.sender.getD ""
    expiration := match s.expiration with
      | some (some e) => .epoch e
      | _ => .noExpiration
    gasData := { payment := s.gasConfig.payment.getD []
                 owner := s.gasConfig.owner.getD (s.sender.getD "")
                 price := price
                 budget := s.gasConfig.budget.getD "" }
    inputs := extractArgs s.inputs
    commands := s.commands }

/-- On a validated builder whose inputs are all resolved (and whose
commands reference only existing inputs), build performs no resolution
work: it settles the price, resolves the final inputs and assembles the
payload, leaving inputs and commands untouched. -/
theorem buildTx_resolved (env : Env) (s : Transaction)
    (hb : strFalsy s.gasConfig.budget = false)
    (hp : s.gasConfig.payment.isNone = false)
    (hs : strFalsy s.sender = false)
    (hres : allResolvedB s.inputs = true)
    (hwf : commandsOK s = true) :
    buildTx env s =
      (.ok ({ s with gasConfig := { s.gasConfig with price := some (effPrice env s) } },
            assembleData s (effPrice env s)),
       effPriceLog env s) := by
  have h3 : stage3 s.commands { inputs := s.inputs, queue := [] } [] =
      .ok ({ inputs := s.inputs, queue := [] }, []) :=
    stage3_resolved s.commands { inputs := s.inputs, queue := [] } [] hres hwf
  have h6 : resolveFinalInputs s.inputs = .ok (extractArgs s.inputs) :=
    resolveFinalInputs_resolved s.inputs hres
  unfold buildTx
  simp only [hb, hp, hs, Bool.false_eq_true, if_false]
  by_cases hpr : strFalsy s.gasConfig.price = true
  · simp only [effPrice, effPriceLog, hpr, if_true]
    simp only [h3, stage4, stage5, List.isEmpty, if_true, h6]
    rfl
  · rw [Bool.not_eq_true] at hpr
    simp only [effPrice, effPriceLog, hpr, Bool.false_eq_true, if_false]
    simp only [h3, stage4, stage5, List.isEmpty, if_true, h6]
    rfl

/-- C6: building a fully resolved, validated builder twice yields the
same `TransactionData` payload both times (the canonical bcs encoding is
a deterministic function of this record, so the byte outputs are
identical). -/
theorem build_idempotent_when_fully_resolved (env : Env) (s : Transaction)
    (hb : strFalsy s.gasConfig.budget = false)
    (hp : s.gasConfig.payment.isNone = false)
    (hs : strFalsy s.sender = false)
    (hres : allResolvedB s.inputs = true)
    (hwf : commandsOK s = true) :
    ∃ s₁ d, (buildTx env s).1 = .ok (s₁, d)
      ∧ ∃ s₂, (buildTx env s₁).1 = .ok (s₂, d) := by
  have h1 := buildTx_resolved env s hb hp hs hres hwf
  refine ⟨{ s with gasConfig := { s.gasConfig with price := some (effPrice env s) } },
    assembleData s (effPrice env s), by rw [h1], ?_⟩
  have hpr₁ : ((effPrice env s).isEmpty : Bool) = false := by
    unfold effPrice
    by_cases hpr : strFalsy s.gasConfig.price = true
    · simp only [hpr, if_true]
      rw [Bool.eq_false_iff]
      intro hh
      exact toString_nat_ne_empty env.referenceGasPrice
        ((String.isEmpty_iff _).mp hh)
    · rw [Bool.not_eq_true] at hpr
      simp only [hpr, Bool.false_eq_true, if_false]
      cases hq : s.gasConfig.price with
      | none => rw [hq] at hpr; exact absurd hpr (by simp [strFalsy])
      | some p =>
        rw [hq] at hpr
        simpa [strFalsy] using hpr
  have h2 := buildTx_resolved env
    { s with gasConfig := { s.gasConfig with price := some (effPrice env s) } }
    hb hp hs hres hwf
  have hpe : effPrice env
      { s with gasConfig := { s.gasConfig with price := some (effPrice env s) } }
      = effPrice env s := by
    show (if ((effPrice env s).isEmpty : Bool) then _ else _) = _
    rw [hpr₁]
    rfl
  rw [hpe] at h2
  have hdata : assembleData
      { s with gasConfig := { s.gasConfig with price := some (effPrice env s) } }
      (effPrice env s) = assembleData s (effPrice env s) := rfl
  rw [hdata] at h2
  exact ⟨_, by rw [h2]⟩

/-- A fully resolved builder with all required fields set (price left to
be fetched). -/
def sC6 : Transaction :=
  { sender := some "0xS"
    gasConfig := { budget := some "100", payment := some [refA] }
    inputs := [{ index := 0, value := some (.callArg (.pureArg "u64" (.num 5))) }]
    commands := [.transferObjects [.input 0] .gasCoin] }

/-- C6 witness: the idempotence statement applied to the concrete fully
resolved builder `sC6`. -/
theorem build_idempotent_when_fully_resolved_witness :
    ∃ s₁ d, (buildTx envC8 sC6).1 = .ok (s₁, d)
      ∧ ∃ s₂, (buildTx envC8 s₁).1 = .ok (s₂, d) :=
  build_idempotent_when_fully_resolved envC8 sC6
    (by decide) (by decide) (by decide) (by decide) (by decide)

end SuiBuilder
